import Mathlib

/-!
Verification development for the layrr coordination layer.

The embedding covers:
* `pkg/bridge/bridge.go` — the instruction formatter `formatMessage`;
* the git checkpoint manager (`CreateCommit`, `GetCommitHistory`,
  `CheckoutCommit`, `ensureMainBranch`) as a state machine over an explicit
  repository state;
* `frontend/src/hooks/useWebSocket.ts` — the correlated transport
  (`sendMessage`, `ws.onmessage`, `ws.onclose`) as a state machine over the
  handler map.

Text is modelled as `List Char`; Go byte lengths coincide with character
counts on ASCII data, and the claims speak in characters.
-/

namespace Layrr

/-! ## Instruction formatter (`pkg/bridge/bridge.go`) -/

/-- Text, modelled as a list of characters. -/
abbrev Str := List Char

/-- Decimal digit character (used to render `%d`). -/
def digitChar (d : Nat) : Char :=
  if d = 0 then '0' else if d = 1 then '1' else if d = 2 then '2'
  else if d = 3 then '3' else if d = 4 then '4' else if d = 5 then '5'
  else if d = 6 then '6' else if d = 7 then '7' else if d = 8 then '8' else '9'

/-- Fuel-indexed decimal rendering of a natural number. -/
def natToCharsAux (fuel : Nat) (n : Nat) : Str :=
  match fuel with
  | 0 => []
  | fuel + 1 =>
      if n < 10 then [digitChar n]
      else natToCharsAux fuel (n / 10) ++ [digitChar (n % 10)]

/-- Decimal rendering of a natural number (`fmt.Sprintf "%d"` on a non-negative int). -/
def natToChars (n : Nat) : Str := natToCharsAux (n + 1) n

/-- Decimal rendering of a Go `int` (`fmt.Sprintf "%d"`). -/
def intToChars (i : Int) : Str :=
  if i < 0 then '-' :: natToChars i.natAbs else natToChars i.natAbs

/-- `ElementInfo` from bridge.go. -/
structure ElementInfo where
  tagName : Str
  id : Str
  classes : Str
  selector : Str
  innerText : Str
  outerHTML : Str
deriving DecidableEq, Repr

/-- `AreaInfo` from bridge.go. -/
structure AreaInfo where
  x : Int
  y : Int
  width : Int
  height : Int
  elementCount : Int
  elements : List ElementInfo
deriving DecidableEq, Repr

/-- `Message` from bridge.go (browser → bridge payload). -/
structure Message where
  id : Int
  area : AreaInfo
  instruction : Str
  screenshot : Str
deriving DecidableEq, Repr

/-- `strings.ReplaceAll t "\n" " "`: every newline becomes a space. -/
def collapseNL (t : Str) : Str := t.map (fun c => if c = '\n' then ' ' else c)

/-- ASCII whitespace, the fragment of Go `unicode.IsSpace` that matters here. -/
def isSpaceChar (c : Char) : Bool := c = ' ' || c = '\t' || c = '\n' || c = '\r'

/-- `strings.TrimSpace`: drop whitespace from both ends. -/
def trimSpace (t : Str) : Str :=
  ((t.dropWhile isSpaceChar).reverse.dropWhile isSpaceChar).reverse

/-- The `if len(t) > n { t = t[:n] + "..." }` truncation pattern of formatMessage. -/
def truncAt (n : Nat) (t : Str) : Str :=
  if t.length > n then t.take n ++ "...".toList else t

/-- One bracketed element descriptor, as built inside formatMessage's loop:
selector, then ` text:"…"` when InnerText is non-empty (newlines collapsed,
trimmed, truncated at 50), then ` html:…` when OuterHTML is non-empty
(newlines collapsed, trimmed, truncated at 100). -/
def elementDesc (el : ElementInfo) : Str :=
  let d1 := "[".toList ++ el.selector
  let d2 :=
    if el.innerText.isEmpty then d1
    else d1 ++ " text:\"".toList ++ truncAt 50 (trimSpace (collapseNL el.innerText))
            ++ "\"".toList
  let d3 :=
    if el.outerHTML.isEmpty then d2
    else d2 ++ " html:".toList ++ truncAt 100 (trimSpace (collapseNL el.outerHTML))
  d3 ++ "]".toList

/-- The `[+%d more elements]` summary token. -/
def summaryTok (n : Nat) : Str :=
  "[+".toList ++ natToChars n ++ " more elements]".toList

/-- The element loop of formatMessage: `total` is `len(msg.Area.Elements)`,
`i` the loop index, `elems` the remaining suffix.  Each iteration appends one
descriptor; after the descriptor at `i ≥ 19`, when `total > 20`, it appends the
summary token and breaks. -/
def loopParts (total : Nat) : Nat → List ElementInfo → List Str
  | _, [] => []
  | i, el :: rest =>
      elementDesc el ::
        (if 19 ≤ i && total > 20
         then [summaryTok (total - 20)]
         else loopParts total (i + 1) rest)

/-- All element parts: the loop started at index 0. -/
def elementParts (elems : List ElementInfo) : List Str :=
  loopParts elems.length 0 elems

/-- The area-summary clause `(Selected %d elements in %dx%d area:` —
the count printed is the `ElementCount` field. -/
def areaClause (a : AreaInfo) : Str :=
  "(Selected ".toList ++ intToChars a.elementCount
    ++ " elements in ".toList ++ intToChars a.width ++ "x".toList
    ++ intToChars a.height ++ " area:".toList

/-- The `parts` slice of formatMessage, in order: instruction, area clause,
element descriptors (with possible summary token), closing `)`. -/
def formatParts (m : Message) : List Str :=
  m.instruction :: areaClause m.area :: (elementParts m.area.elements ++ [")".toList])

/-- `strings.Join parts " "`. -/
def joinSpace : List Str → Str
  | [] => []
  | [p] => p
  | p :: ps => p ++ ' ' :: joinSpace ps

/-- `formatMessage` from bridge.go. -/
def formatMessage (m : Message) : Str := joinSpace (formatParts m)

/-! ### Structural lemmas about the element loop -/

theorem loopParts_of_le {total : Nat} (h : total ≤ 20) :
    ∀ (i : Nat) (elems : List ElementInfo),
      loopParts total i elems = elems.map elementDesc := by
  intro i elems
  induction elems generalizing i with
  | nil => rfl
  | cons el rest ih =>
      have hgt : decide (total > 20) = false := by simp; omega
      simp [loopParts, hgt, ih]

theorem loopParts_of_gt {total : Nat} (h : total > 20) :
    ∀ (elems : List ElementInfo) (i : Nat), i + elems.length = total → i ≤ 19 →
      loopParts total i elems
        = (elems.take (20 - i)).map elementDesc ++ [summaryTok (total - 20)] := by
  intro elems
  induction elems with
  | nil => intro i hlen hi; simp at hlen; omega
  | cons el rest ih =>
      intro i hlen hi
      by_cases h19 : 19 ≤ i
      · have hi19 : i = 19 := by omega
        subst hi19
        rw [show loopParts total 19 (el :: rest)
              = elementDesc el :: [summaryTok (total - 20)] by
            simp [loopParts, h]]
        rw [show (20 : Nat) - 19 = 1 from rfl]
        simp
      · have hlen' : (i + 1) + rest.length = total := by
          simp only [List.length_cons] at hlen; omega
        rw [show loopParts total i (el :: rest)
              = elementDesc el :: loopParts total (i + 1) rest by
            simp [loopParts, h19]]
        rw [ih (i + 1) hlen' (by omega)]
        rw [show (20 : Nat) - i = (20 - (i + 1)) + 1 by omega]
        simp

theorem elementParts_of_le {elems : List ElementInfo} (h : elems.length ≤ 20) :
    elementParts elems = elems.map elementDesc := by
  simp [elementParts, loopParts_of_le h]

theorem elementParts_of_gt {elems : List ElementInfo} (h : elems.length > 20) :
    elementParts elems
      = (elems.take 20).map elementDesc ++ [summaryTok (elems.length - 20)] := by
  simpa using loopParts_of_gt h elems 0 (by simp) (by omega)

/-- Claim C7: for a Selection with more than 20 elements, the formatted parts
are the instruction, the area clause, exactly the descriptors of the first 20
elements in captured order, one summary token counting `total - 20`, and the
closing parenthesis; the descriptor count is exactly 20. -/
theorem c7_hard_cap (m : Message) (h : m.area.elements.length > 20) :
    formatParts m
      = m.instruction :: areaClause m.area ::
          (((m.area.elements.take 20).map elementDesc
              ++ [summaryTok (m.area.elements.length - 20)]) ++ [")".toList])
    ∧ ((m.area.elements.take 20).map elementDesc).length = 20 := by
  constructor
  · simp [formatParts, elementParts_of_gt h]
  · simp [List.length_take]; omega

/-- A message with 21 elements, used to instantiate the hard-cap theorem. -/
def msg21 : Message :=
  { id := 1
  , area :=
      { x := 0, y := 0, width := 10, height := 10, elementCount := 21
      , elements := (List.range 21).map (fun i =>
          { tagName := [], id := [], classes := []
          , selector := 'e' :: natToChars i, innerText := [], outerHTML := [] }) }
  , instruction := "hi".toList
  , screenshot := [] }

theorem c7_hard_cap_witness :
    formatParts msg21
      = msg21.instruction :: areaClause msg21.area ::
          (((msg21.area.elements.take 20).map elementDesc
              ++ [summaryTok (msg21.area.elements.length - 20)]) ++ [")".toList])
    ∧ ((msg21.area.elements.take 20).map elementDesc).length = 20 :=
  c7_hard_cap msg21 (by decide)

/-! ### No-newline lemmas (claim C8) -/

theorem nl_append {A B : Str} (ha : '\n' ∉ A) (hb : '\n' ∉ B) : '\n' ∉ A ++ B := by
  intro hmem
  rcases List.mem_append.mp hmem with h1 | h1
  · exact ha h1
  · exact hb h1

theorem nl_not_mem_collapseNL (t : Str) : '\n' ∉ collapseNL t := by
  intro hmem
  rcases List.mem_map.mp hmem with ⟨c, _, hc⟩
  by_cases h : c = '\n' <;> simp [h] at hc

theorem mem_of_mem_trimSpace {c : Char} {t : Str} (h : c ∈ trimSpace t) : c ∈ t := by
  unfold trimSpace at h
  rw [List.mem_reverse] at h
  have h1 := (List.dropWhile_sublist isSpaceChar).subset h
  rw [List.mem_reverse] at h1
  exact (List.dropWhile_sublist isSpaceChar).subset h1

theorem nl_not_mem_truncAt {t : Str} (n : Nat) (h : '\n' ∉ t) :
    '\n' ∉ truncAt n t := by
  unfold truncAt
  split
  · intro hmem
    rcases List.mem_append.mp hmem with h1 | h1
    · exact h (List.take_subset n t h1)
    · simp at h1
  · exact h

theorem digitChar_ne_nl (d : Nat) : digitChar d ≠ '\n' := by
  unfold digitChar
  repeat' split
  all_goals decide

theorem nl_not_mem_natToCharsAux (fuel n : Nat) : '\n' ∉ natToCharsAux fuel n := by
  induction fuel generalizing n with
  | zero => simp [natToCharsAux]
  | succ fuel ih =>
      unfold natToCharsAux
      split
      · intro hmem
        rw [List.mem_singleton] at hmem
        exact digitChar_ne_nl n hmem.symm
      · intro hmem
        rcases List.mem_append.mp hmem with h1 | h1
        · exact ih _ h1
        · rw [List.mem_singleton] at h1
          exact digitChar_ne_nl (n % 10) h1.symm

theorem nl_not_mem_natToChars (n : Nat) : '\n' ∉ natToChars n :=
  nl_not_mem_natToCharsAux (n + 1) n

theorem nl_not_mem_intToChars (i : Int) : '\n' ∉ intToChars i := by
  unfold intToChars
  split
  · intro hmem
    rcases List.mem_cons.mp hmem with h1 | h1
    · exact absurd h1 (by decide)
    · exact nl_not_mem_natToChars _ h1
  · exact nl_not_mem_natToChars _

theorem nl_not_mem_summaryTok (n : Nat) : '\n' ∉ summaryTok n := by
  unfold summaryTok
  exact nl_append (nl_append (by decide) (nl_not_mem_natToChars n)) (by decide)

theorem nl_not_mem_elementDesc {el : ElementInfo} (hsel : '\n' ∉ el.selector) :
    '\n' ∉ elementDesc el := by
  have htext : '\n' ∉ truncAt 50 (trimSpace (collapseNL el.innerText)) :=
    nl_not_mem_truncAt 50 (fun hm => nl_not_mem_collapseNL _ (mem_of_mem_trimSpace hm))
  have hhtml : '\n' ∉ truncAt 100 (trimSpace (collapseNL el.outerHTML)) :=
    nl_not_mem_truncAt 100 (fun hm => nl_not_mem_collapseNL _ (mem_of_mem_trimSpace hm))
  have hopen : '\n' ∉ "[".toList ++ el.selector := nl_append (by decide) hsel
  simp only [elementDesc]
  by_cases hin : el.innerText.isEmpty = true
  · by_cases hout : el.outerHTML.isEmpty = true
    · rw [if_pos hout, if_pos hin]
      exact nl_append hopen (by decide)
    · rw [if_neg hout, if_pos hin]
      exact nl_append (nl_append (nl_append hopen (by decide)) hhtml) (by decide)
  · by_cases hout : el.outerHTML.isEmpty = true
    · rw [if_pos hout, if_neg hin]
      exact nl_append
        (nl_append (nl_append (nl_append hopen (by decide)) htext) (by decide))
        (by decide)
    · rw [if_neg hout, if_neg hin]
      exact nl_append
        (nl_append
          (nl_append
            (nl_append (nl_append (nl_append hopen (by decide)) htext) (by decide))
            (by decide))
          hhtml)
        (by decide)

theorem nl_not_mem_areaClause {a : AreaInfo} : '\n' ∉ areaClause a := by
  unfold areaClause
  exact nl_append
    (nl_append
      (nl_append
        (nl_append
          (nl_append (nl_append (by decide) (nl_not_mem_intToChars a.elementCount))
            (by decide))
          (nl_not_mem_intToChars a.width))
        (by decide))
      (nl_not_mem_intToChars a.height))
    (by decide)

theorem mem_loopParts {total : Nat} :
    ∀ {i : Nat} {elems : List ElementInfo} {p : Str}, p ∈ loopParts total i elems →
      (∃ el ∈ elems, p = elementDesc el) ∨ ∃ k, p = summaryTok k := by
  intro i elems
  induction elems generalizing i with
  | nil => intro p hp; simp [loopParts] at hp
  | cons el rest ih =>
      intro p hp
      simp only [loopParts] at hp
      rcases List.mem_cons.mp hp with h1 | h1
      · exact Or.inl ⟨el, by simp, h1⟩
      · split at h1
        · rcases List.mem_singleton.mp h1 with rfl
          exact Or.inr ⟨total - 20, rfl⟩
        · rcases ih h1 with ⟨el', hel', hp'⟩ | h2
          · exact Or.inl ⟨el', by simp [hel'], hp'⟩
          · exact Or.inr h2

theorem nl_not_mem_joinSpace :
    ∀ ps : List Str, (∀ p ∈ ps, '\n' ∉ p) → '\n' ∉ joinSpace ps
  | [], _ => by simp [joinSpace]
  | [p], h => by simpa [joinSpace] using h p (by simp)
  | p :: q :: ps, h => by
      have ih := nl_not_mem_joinSpace (q :: ps)
        (fun r hr => h r (List.mem_cons_of_mem _ hr))
      intro hmem
      rw [show joinSpace (p :: q :: ps) = p ++ ' ' :: joinSpace (q :: ps) from rfl]
        at hmem
      rcases List.mem_append.mp hmem with h1 | h1
      · exact h p (by simp) h1
      · rcases List.mem_cons.mp h1 with h2 | h2
        · exact absurd h2 (by decide)
        · exact ih h2

/-- A message whose free-text instruction contains a newline: the formatter
output keeps it, refuting claim C8 as stated. -/
def nlMsg : Message :=
  { id := 1
  , area := { x := 0, y := 0, width := 0, height := 0, elementCount := 0, elements := [] }
  , instruction := ['a', '\n', 'b']
  , screenshot := [] }

/-- Claim C8, counterexample: the instruction is emitted verbatim, so a
newline inside it reaches the output — the result is not single-line. -/
theorem c8_counterexample : '\n' ∈ formatMessage nlMsg := by decide

/-- Claim C8, amended: when the free-text instruction and every element
selector contain no newline, the output contains no newline; newlines inside
captured inner text and markup are always collapsed to spaces (those parts of
the output are newline-free whatever the input). -/
theorem c8_amended (m : Message)
    (hins : '\n' ∉ m.instruction)
    (hsel : ∀ el ∈ m.area.elements, '\n' ∉ el.selector) :
    '\n' ∉ formatMessage m := by
  unfold formatMessage
  apply nl_not_mem_joinSpace
  intro p hp
  simp only [formatParts, List.mem_cons] at hp
  rcases hp with rfl | hp
  · exact hins
  · rcases hp with rfl | hp
    · exact nl_not_mem_areaClause
    · rcases List.mem_append.mp hp with h1 | h1
      · rcases mem_loopParts h1 with ⟨el, hel, rfl⟩ | ⟨k, rfl⟩
        · exact nl_not_mem_elementDesc (hsel el hel)
        · exact nl_not_mem_summaryTok k
      · rcases List.mem_singleton.mp h1 with rfl
        decide

/-- A message with newlines inside inner text and markup but none in the
instruction or selectors. -/
def cleanMsg : Message :=
  { id := 2
  , area :=
      { x := 0, y := 0, width := 300, height := 120, elementCount := 1
      , elements :=
          [ { tagName := "div".toList, id := [], classes := []
            , selector := "div#a".toList
            , innerText := ['l', '1', '\n', 'l', '2']
            , outerHTML := ['<', 'd', '\n', '>', 'x'] } ] }
  , instruction := "make it purple".toList
  , screenshot := [] }

theorem c8_amended_witness : '\n' ∉ formatMessage cleanMsg :=
  c8_amended cleanMsg (by decide) (by decide)

/-! ### Truncation (claim C9) -/

/-- Claim C9: inside the element descriptor, a 51-character inner text (after
newline collapsing and trimming) is cut to its first 50 characters plus the
`...` marker; a 50-character one is emitted unchanged; markup longer than 100
characters is cut to 100 plus the marker. -/
theorem c9_truncation (el : ElementInfo) :
    ((trimSpace (collapseNL el.innerText)).length = 51 → el.innerText.isEmpty = false →
      elementDesc el
        = "[".toList ++ el.selector
            ++ " text:\"".toList
            ++ ((trimSpace (collapseNL el.innerText)).take 50 ++ "...".toList)
            ++ "\"".toList
            ++ (if el.outerHTML.isEmpty then []
                else " html:".toList ++ truncAt 100 (trimSpace (collapseNL el.outerHTML)))
            ++ "]".toList)
    ∧ ((trimSpace (collapseNL el.innerText)).length = 50 → el.innerText.isEmpty = false →
      elementDesc el
        = "[".toList ++ el.selector
            ++ " text:\"".toList ++ trimSpace (collapseNL el.innerText) ++ "\"".toList
            ++ (if el.outerHTML.isEmpty then []
                else " html:".toList ++ truncAt 100 (trimSpace (collapseNL el.outerHTML)))
            ++ "]".toList)
    ∧ ((trimSpace (collapseNL el.outerHTML)).length > 100 → el.outerHTML.isEmpty = false →
      elementDesc el
        = "[".toList ++ el.selector
            ++ (if el.innerText.isEmpty then []
                else " text:\"".toList ++ truncAt 50 (trimSpace (collapseNL el.innerText))
                      ++ "\"".toList)
            ++ " html:".toList
            ++ ((trimSpace (collapseNL el.outerHTML)).take 100 ++ "...".toList)
            ++ "]".toList) := by
  refine ⟨?_, ?_, ?_⟩
  · intro h51 hne
    have ht : truncAt 50 (trimSpace (collapseNL el.innerText))
        = (trimSpace (collapseNL el.innerText)).take 50 ++ "...".toList := by
      unfold truncAt; rw [if_pos (by omega)]
    unfold elementDesc
    rw [hne]
    by_cases hout : el.outerHTML.isEmpty
    · simp [hout, ht]
    · simp only [hout, if_neg, Bool.false_eq_true, if_false, ht]
      simp
  · intro h50 hne
    have ht : truncAt 50 (trimSpace (collapseNL el.innerText))
        = trimSpace (collapseNL el.innerText) := by
      unfold truncAt; rw [if_neg (by omega)]
    unfold elementDesc
    rw [hne]
    by_cases hout : el.outerHTML.isEmpty
    · simp [hout, ht]
    · simp only [hout, if_neg, Bool.false_eq_true, if_false, ht]
      simp
  · intro h100 hout
    have ht : truncAt 100 (trimSpace (collapseNL el.outerHTML))
        = (trimSpace (collapseNL el.outerHTML)).take 100 ++ "...".toList := by
      unfold truncAt; rw [if_pos (by omega)]
    unfold elementDesc
    rw [hout]
    by_cases hin : el.innerText.isEmpty
    · simp [hin, ht]
    · simp only [hin, if_neg, Bool.false_eq_true, if_false, ht]
      simp

/-- Element with a 51-character inner text and 101-character markup. -/
def el51 : ElementInfo :=
  { tagName := [], id := [], classes := [], selector := "p".toList
  , innerText := List.replicate 51 'a', outerHTML := List.replicate 101 'b' }

/-- Element with an inner text of exactly 50 characters. -/
def el50 : ElementInfo :=
  { tagName := [], id := [], classes := [], selector := "p".toList
  , innerText := List.replicate 50 'a', outerHTML := [] }

theorem c9_truncation_witness :
    (elementDesc el51
      = "[".toList ++ el51.selector
          ++ " text:\"".toList
          ++ ((trimSpace (collapseNL el51.innerText)).take 50 ++ "...".toList)
          ++ "\"".toList
          ++ (if el51.outerHTML.isEmpty then []
              else " html:".toList ++ truncAt 100 (trimSpace (collapseNL el51.outerHTML)))
          ++ "]".toList)
    ∧ (elementDesc el50
      = "[".toList ++ el50.selector
          ++ " text:\"".toList ++ trimSpace (collapseNL el50.innerText) ++ "\"".toList
          ++ (if el50.outerHTML.isEmpty then []
              else " html:".toList ++ truncAt 100 (trimSpace (collapseNL el50.outerHTML)))
          ++ "]".toList)
    ∧ (elementDesc el51
      = "[".toList ++ el51.selector
          ++ (if el51.innerText.isEmpty then []
              else " text:\"".toList ++ truncAt 50 (trimSpace (collapseNL el51.innerText))
                    ++ "\"".toList)
          ++ " html:".toList
          ++ ((trimSpace (collapseNL el51.outerHTML)).take 100 ++ "...".toList)
          ++ "]".toList) :=
  ⟨(c9_truncation el51).1 (by decide) (by decide),
   (c9_truncation el50).2.1 (by decide) (by decide),
   (c9_truncation el51).2.2 (by decide) (by decide)⟩

/-! ### Stated element count versus emitted descriptors (claim C10) -/

/-- A message whose `ElementCount` field (20) disagrees with its element-list
length (21). -/
def msgMiscount : Message :=
  { id := 3
  , area :=
      { x := 0, y := 0, width := 10, height := 10, elementCount := 20
      , elements := (List.range 21).map (fun i =>
          { tagName := [], id := [], classes := []
          , selector := 'e' :: natToChars i, innerText := [], outerHTML := [] }) }
  , instruction := "hi".toList
  , screenshot := [] }

/-- Claim C10, counterexample: with `ElementCount = 20` and 21 elements the two
disagree, yet exactly 20 descriptors are emitted and the stated count is also
20 — the stated count does not differ from the number of descriptors emitted. -/
theorem c10_counterexample :
    msgMiscount.area.elementCount ≠ (msgMiscount.area.elements.length : Int)
    ∧ elementParts msgMiscount.area.elements
        = (msgMiscount.area.elements.take 20).map elementDesc ++ [summaryTok 1]
    ∧ ((msgMiscount.area.elements.take 20).map elementDesc).length = 20
    ∧ msgMiscount.area.elementCount = (20 : Int) := by
  refine ⟨by decide, ?_, by decide, by decide⟩
  have h : elementParts msgMiscount.area.elements
      = (msgMiscount.area.elements.take 20).map elementDesc
          ++ [summaryTok (msgMiscount.area.elements.length - 20)] :=
    elementParts_of_gt (by decide)
  simpa using h

/-- Claim C10, amended: the count printed in the area clause is the
`ElementCount` field (not the list length); the number of descriptors emitted
is `min (length, 20)`; whenever the field differs from that number, the stated
count differs from the number of descriptors actually emitted. -/
theorem c10_amended (m : Message) :
    formatParts m
      = m.instruction :: areaClause m.area
          :: (elementParts m.area.elements ++ [")".toList])
    ∧ areaClause m.area
      = "(Selected ".toList ++ intToChars m.area.elementCount
          ++ " elements in ".toList ++ intToChars m.area.width ++ "x".toList
          ++ intToChars m.area.height ++ " area:".toList
    ∧ elementParts m.area.elements
      = (m.area.elements.take 20).map elementDesc
          ++ (if m.area.elements.length > 20
              then [summaryTok (m.area.elements.length - 20)] else [])
    ∧ ((m.area.elements.take 20).map elementDesc).length
        = min m.area.elements.length 20
    ∧ (m.area.elementCount ≠ (min m.area.elements.length 20 : Int) →
        m.area.elementCount
          ≠ (((m.area.elements.take 20).map elementDesc).length : Int)) := by
  have hlen : ((m.area.elements.take 20).map elementDesc).length
      = min m.area.elements.length 20 := by
    simp [List.length_take, Nat.min_comm]
  refine ⟨rfl, rfl, ?_, hlen, ?_⟩
  · by_cases h : m.area.elements.length > 20
    · rw [elementParts_of_gt h, if_pos h]
    · rw [elementParts_of_le (by omega), if_neg h,
        List.take_of_length_le (by omega), List.append_nil]
  · intro hne
    rw [hlen]
    exact_mod_cast hne

/-- A message stating 5 elements while carrying 2. -/
def msgStale : Message :=
  { id := 4
  , area :=
      { x := 0, y := 0, width := 10, height := 10, elementCount := 5
      , elements :=
          [ { tagName := [], id := [], classes := [], selector := "a".toList
            , innerText := [], outerHTML := [] }
          , { tagName := [], id := [], classes := [], selector := "b".toList
            , innerText := [], outerHTML := [] } ] }
  , instruction := "hi".toList
  , screenshot := [] }

theorem c10_amended_witness :
    msgStale.area.elementCount
      ≠ (((msgStale.area.elements.take 20).map elementDesc).length : Int) :=
  (c10_amended msgStale).2.2.2.2 (by decide)

/-! ## Checkpoint manager (git.go, `GitManager`)

The repository is modelled as an explicit state: the commit object store, the
branch map, the current `HEAD` (a branch or a detached commit), separate flags
for unstaged working-tree changes (`worktree`) and staged index changes
(`index`) — `git add .` moves the former into the latter, and a failed commit
leaves the staging in place — an abstract content conflict relation on commit
hashes (`conflicts`, standing in for the file contents that decide whether a
non fast-forward merge conflicts), and a clock used for commit dates and
fresh hashes.  A conflicted `git merge` fails and leaves the working tree
conflict-marked. -/

/-- A commit object in the repository store (parents give the commit graph). -/
structure CommitObj where
  hash : String
  message : String
  author : String
  date : Nat
  parents : List String
deriving DecidableEq, Repr

/-- The `Commit` record returned by `GetCommitHistory` (git.go lines 12–18). -/
structure Commit where
  hash : String
  message : String
  author : String
  date : Nat
  shortHash : String
deriving DecidableEq, Repr

/-- Current position: on a named branch, or detached at a commit. -/
inductive Head where
  | onBranch (name : String)
  | detached (hash : String)
deriving DecidableEq, Repr

/-- Repository state. -/
structure RepoState where
  commits : List CommitObj
  branches : List (String × String)
  head : Head
  worktree : Bool
  index : Bool
  conflicts : List (String × String)
  now : Nat
deriving DecidableEq, Repr

/-- `git rev-parse --abbrev-ref HEAD`: the branch name, or `"HEAD"` when
detached. -/
def headName : Head → String
  | .onBranch n => n
  | .detached _ => "HEAD"

def lookupBranch (s : RepoState) (n : String) : Option String :=
  (s.branches.find? (fun p => p.1 = n)).map (fun p => p.2)

def branchExists (s : RepoState) (n : String) : Bool :=
  (lookupBranch s n).isSome

/-- The commit `HEAD` resolves to, when it resolves. -/
def resolveHead (s : RepoState) : Option String :=
  match s.head with
  | .onBranch n => lookupBranch s n
  | .detached h => some h

def setBranches (bs : List (String × String)) (n h : String) :
    List (String × String) :=
  bs.map (fun p => if p.1 = n then (n, h) else p)

/-- Move branch `n` to commit `h`, creating the branch if absent. -/
def setOrAddBranch (s : RepoState) (n h : String) : RepoState :=
  if branchExists s n then { s with branches := setBranches s.branches n h }
  else { s with branches := (n, h) :: s.branches }

def hashExists (s : RepoState) (h : String) : Bool :=
  s.commits.any (fun c => c.hash = h)

def parentsOf (s : RepoState) (h : String) : List String :=
  match s.commits.find? (fun c => c.hash = h) with
  | some c => c.parents
  | none => []

/-- Fuel-bounded ancestor closure of a set of commit hashes. -/
def reachAux (s : RepoState) : Nat → List String → List String
  | 0, acc => acc
  | fuel + 1, acc =>
      let next := (acc.map (parentsOf s)).flatten.filter (fun h => ¬ acc.contains h)
      if next.isEmpty then acc else reachAux s fuel (acc ++ next)

/-- Hashes reachable from `h` through parent edges (including `h`). -/
def reachable (s : RepoState) (h : String) : List String :=
  reachAux s s.commits.length [h]

/-- `a` is an ancestor of (or equal to) `b`. -/
def isAncestor (s : RepoState) (a b : String) : Bool :=
  (reachable s b).any (fun x => x = a)

/-- The two commits conflict on content when merged (abstract stand-in for
the file contents the state model does not carry). -/
def conflictsWith (s : RepoState) (a b : String) : Bool :=
  s.conflicts.any (fun p => (p.1 = a && p.2 = b) || (p.1 = b && p.2 = a))

/-- Fresh commit hash, derived from the clock. -/
def freshHash (s : RepoState) : String := "c" ++ String.mk (natToChars s.now)

/-- `git merge --ff-only other` while on `main`: succeeds only when `main` is
already up to date or can fast-forward to `other`'s tip; it refuses cleanly
(no tree effects) otherwise. -/
def mergeFFOnly (s : RepoState) (other : String) : Option RepoState :=
  match lookupBranch s "main", lookupBranch s other with
  | some mainTip, some otherTip =>
      if mainTip = otherTip then some s
      else if isAncestor s otherTip mainTip then some s
      else if isAncestor s mainTip otherTip then
        some { s with branches := setBranches s.branches "main" otherTip }
      else none
  | _, _ => none

/-- `git merge other` while on `main` (the fallback in ensureMainBranch):
fast-forwards when possible; otherwise, if the two tips conflict on content,
it exits nonzero and leaves the working tree conflict-marked; otherwise it
creates a merge commit.  The Bool is the exit status (true = success). -/
def mergeFull (s : RepoState) (other : String) : RepoState × Bool :=
  match lookupBranch s "main", lookupBranch s other with
  | some mainTip, some otherTip =>
      if mainTip = otherTip then (s, true)
      else if isAncestor s otherTip mainTip then (s, true)
      else if isAncestor s mainTip otherTip then
        ({ s with branches := setBranches s.branches "main" otherTip }, true)
      else if conflictsWith s mainTip otherTip then
        ({ s with worktree := true }, false)
      else
        ({ s with
            commits :=
              { hash := "merge-" ++ String.mk (natToChars s.now),
                message := "Merge branch " ++ other,
                author := "user",
                date := s.now,
                parents := [mainTip, otherTip] } :: s.commits,
            branches :=
              setBranches s.branches "main"
                ("merge-" ++ String.mk (natToChars s.now)),
            now := s.now + 1 },
          true)
  | _, _ => (s, false)

/-- Failure points inside `ensureMainBranch` (each wrap site of git.go
lines 143–182). -/
inductive EnsureError where
  | createBranchFailed
  | mergeFailed
deriving DecidableEq, Repr

/-- Errors returned by the `GitManager` operations, one constructor per wrap
site: `failed to ensure main branch`, `failed to stage changes`, `failed to
create commit`, and the unwrapped `git reset --hard` failure. -/
inductive GitError where
  | ensureMainFailed (e : EnsureError)
  | stageFailed
  | commitFailed
  | resetFailed
deriving DecidableEq, Repr

/-- `ensureMainBranch` (git.go lines 143–182).  Mutating operations return the
state they leave behind together with an optional error, because on-disk
effects persist when a later step fails.  Steps, in source order: read the
current branch; return if already `main`; create `main` at `HEAD` if missing;
check out `main`; if the previous position was a named branch, merge it with
`--ff-only`, falling back to a full merge. -/
def ensureMainBranch (s : RepoState) : RepoState × Option EnsureError :=
  let currentBranch := headName s.head
  if currentBranch = "main" then (s, none)
  else
    match (if branchExists s "main" then some s
           else (resolveHead s).map (fun h =>
             { s with branches := ("main", h) :: s.branches })) with
    | none => (s, some .createBranchFailed)
    | some s1 =>
        let s2 := { s1 with head := Head.onBranch "main" }
        if currentBranch = "HEAD" then (s2, none)
        else
          match mergeFFOnly s2 currentBranch with
          | some s3 => (s3, none)
          | none =>
              match mergeFull s2 currentBranch with
              | (s3, true) => (s3, none)
              | (s3, false) => (s3, some .mergeFailed)

/-- `git add .`: stage every working-tree change into the index. -/
def gitAdd (s : RepoState) : RepoState :=
  { s with index := s.index || s.worktree, worktree := false }

/-- `git commit -m message` with the Layrr author environment: fails when
nothing is staged, otherwise commits the index as a commit with author
`Layrr` dated now and advances the current branch (or detached `HEAD`). -/
def gitCommit (s : RepoState) (message : String) : Option RepoState :=
  if s.index = false then none
  else
    let c : CommitObj :=
      { hash := freshHash s, message := message, author := "Layrr"
      , date := s.now
      , parents :=
          match resolveHead s with
          | some tip => [tip]
          | none => [] }
    match s.head with
    | .onBranch n =>
        some { (setOrAddBranch s n c.hash) with
                 commits := c :: s.commits, index := false, now := s.now + 1 }
    | .detached _ =>
        some { s with commits := c :: s.commits, head := Head.detached c.hash
                    , index := false, now := s.now + 1 }

/-- `CreateCommit` (git.go lines 28–53), the checkpoint-manager
`createCheckpoint`: ensure main branch, stage everything (`git add .`), then
commit.  When the commit step fails its staging persists (the post-add state
is returned), and any commit-step failure is wrapped in the one generic
`commitFailed` error — the code has no distinct "nothing to checkpoint"
condition. -/
def CreateCommit (s : RepoState) (message : String) : RepoState × Option GitError :=
  match ensureMainBranch s with
  | (s1, some e) => (s1, some (.ensureMainFailed e))
  | (s1, none) =>
      let s2 := gitAdd s1
      match gitCommit s2 message with
      | some s3 => (s3, none)
      | none => (s2, some .commitFailed)

/-- `CheckoutCommit` (git.go lines 100–109), the checkpoint-manager
`travelTo`: ensure main branch, then `git reset --hard commitHash`, which
moves the `main` branch pointer and working tree to the commit and discards
uncommitted changes (working tree and index); it fails when the hash does not
name a commit. -/
def CheckoutCommit (s : RepoState) (commitHash : String) :
    RepoState × Option GitError :=
  match ensureMainBranch s with
  | (s1, some e) => (s1, some (.ensureMainFailed e))
  | (s1, none) =>
      if hashExists s1 commitHash then
        ({ setOrAddBranch s1 "main" commitHash with
             worktree := false, index := false }, none)
      else (s1, some .resetFailed)

/-- Sort key of `git log --all --date-order`: commit date descending. -/
def byDateDesc (a b : CommitObj) : Bool := b.date ≤ a.date

/-- Projection to the `Commit` record of a `git log --pretty` line
(`%H|%h|%an|%aI|%s`; the abbreviated hash is modelled as a 7-character
prefix). -/
def toCommit (c : CommitObj) : Commit :=
  { hash := c.hash, message := c.message, author := c.author, date := c.date
  , shortHash := c.hash.take 7 }

/-- The ref tips `git log --all` starts from: every branch tip, plus `HEAD`. -/
def refTips (s : RepoState) : List String :=
  s.branches.map (fun p => p.2)
    ++ (match resolveHead s with
        | some h => [h]
        | none => [])

/-- A commit is listed by `git log --all` exactly when it is reachable from
some ref tip; commits orphaned by `reset --hard` are not. -/
def isListed (s : RepoState) (c : CommitObj) : Bool :=
  (refTips s).any (fun tip => isAncestor s c.hash tip)

def listedCommits (s : RepoState) : List CommitObj :=
  s.commits.filter (fun c => isListed s c)

/-- `GetCommitHistory` (git.go lines 55–98): `git log --all --date-order
-limit`, i.e. the commits reachable from the refs and `HEAD`, newest first,
projected to `Commit` records. -/
def GetCommitHistory (s : RepoState) (limit : Nat) : List Commit :=
  (((listedCommits s).mergeSort byDateDesc).take limit).map toCommit

/-- Modelled from the spec: `currentCheckpoint()` (`GetCurrentGitCommit` in
the frontend bindings) is not under src — only its frontend caller is.  Per
spec §4.5 it "returns the full id of the current position". -/
def currentCheckpoint (s : RepoState) : Option String := resolveHead s

/-! ### Basic state lemmas -/

theorem setOrAddBranch_head (s : RepoState) (n h : String) :
    (setOrAddBranch s n h).head = s.head := by
  unfold setOrAddBranch; split <;> rfl

theorem setOrAddBranch_commits (s : RepoState) (n h : String) :
    (setOrAddBranch s n h).commits = s.commits := by
  unfold setOrAddBranch; split <;> rfl

theorem headName_eq_main {hd : Head} (h : headName hd = "main") :
    hd = Head.onBranch "main" := by
  cases hd with
  | onBranch n => simp [headName] at h; rw [h]
  | detached x =>
      rw [show headName (Head.detached x) = "HEAD" from rfl] at h
      exact absurd h (by decide)

/-! ### Reachability lemmas -/

theorem mergeFFOnly_ok {s t : RepoState} {other : String}
    (h : mergeFFOnly s other = some t) :
    t.head = s.head ∧ t.worktree = s.worktree ∧ t.index = s.index
      ∧ t.commits = s.commits := by
  unfold mergeFFOnly at h
  split at h
  · split_ifs at h <;>
      (simp only [Option.some.injEq] at h; subst h; exact ⟨rfl, rfl, rfl, rfl⟩)
  · simp at h

theorem mergeFull_true {s t : RepoState} {other : String}
    (h : mergeFull s other = (t, true)) :
    t.head = s.head ∧ t.worktree = s.worktree ∧ t.index = s.index
      ∧ (∀ c ∈ s.commits, c ∈ t.commits)
      ∧ (∀ c ∈ t.commits, c ∈ s.commits ∨ c.author = "user") := by
  unfold mergeFull at h
  split at h
  · split_ifs at h
    · injection h with h1 h2; subst h1
      exact ⟨rfl, rfl, rfl, fun c hc => hc, fun c hc => Or.inl hc⟩
    · injection h with h1 h2; subst h1
      exact ⟨rfl, rfl, rfl, fun c hc => hc, fun c hc => Or.inl hc⟩
    · injection h with h1 h2; subst h1
      exact ⟨rfl, rfl, rfl, fun c hc => hc, fun c hc => Or.inl hc⟩
    · injection h with h1 h2; cases h2
    · injection h with h1 h2; subst h1
      refine ⟨rfl, rfl, rfl, fun c hc => List.mem_cons_of_mem _ hc,
        fun c hc => ?_⟩
      rcases List.mem_cons.mp hc with rfl | hc'
      · exact Or.inr rfl
      · exact Or.inl hc'
  · injection h with h1 h2; cases h2

theorem mergeFull_false {s t : RepoState} {other : String}
    (h : mergeFull s other = (t, false)) :
    t.commits = s.commits ∧ t.head = s.head := by
  unfold mergeFull at h
  split at h
  · split_ifs at h
    · injection h with h1 h2; cases h2
    · injection h with h1 h2; cases h2
    · injection h with h1 h2; cases h2
    · injection h with h1 h2; subst h1; exact ⟨rfl, rfl⟩
    · injection h with h1 h2; cases h2
  · injection h with h1 h2; subst h1; exact ⟨rfl, rfl⟩

/-- The state `ensureMainBranch` reaches after the create-if-missing step
preserves commits and both change flags. -/
theorem branchInit_ok {s s1 : RepoState}
    (heq : (if branchExists s "main" then some s
            else (resolveHead s).map (fun h =>
              { s with branches := ("main", h) :: s.branches })) = some s1) :
    s1.commits = s.commits ∧ s1.worktree = s.worktree ∧ s1.index = s.index := by
  split at heq
  · simp only [Option.some.injEq] at heq; subst heq; exact ⟨rfl, rfl, rfl⟩
  · cases hr : resolveHead s <;> rw [hr] at heq
    · simp at heq
    · simp only [Option.map_some', Option.some.injEq] at heq
      subst heq
      exact ⟨rfl, rfl, rfl⟩

theorem ensureMainBranch_ok {s t : RepoState}
    (h : ensureMainBranch s = (t, none)) :
    t.head = Head.onBranch "main" ∧ t.worktree = s.worktree ∧ t.index = s.index
      ∧ (∀ c ∈ s.commits, c ∈ t.commits)
      ∧ (∀ c ∈ t.commits, c ∈ s.commits ∨ c.author = "user") := by
  simp only [ensureMainBranch] at h
  by_cases hmain : headName s.head = "main"
  · rw [if_pos hmain] at h
    injection h with h1 h2
    subst h1
    exact ⟨headName_eq_main hmain, rfl, rfl, fun c hc => hc,
      fun c hc => Or.inl hc⟩
  · rw [if_neg hmain] at h
    split at h
    · simp at h
    · rename_i s1 heq
      obtain ⟨hcs, hws, his⟩ := branchInit_ok heq
      by_cases hHEAD : headName s.head = "HEAD"
      · rw [if_pos hHEAD] at h
        injection h with h1 h2
        subst h1
        refine ⟨rfl, hws, his, fun c hc => ?_, fun c hc => ?_⟩
        · show c ∈ s1.commits
          rw [hcs]; exact hc
        · have hc' : c ∈ s1.commits := hc
          rw [hcs] at hc'
          exact Or.inl hc'
      · rw [if_neg hHEAD] at h
        split at h
        · rename_i s3 hff
          injection h with h1 h2
          subst h1
          obtain ⟨e1, e2, e3, e4⟩ := mergeFFOnly_ok hff
          refine ⟨by rw [e1], by rw [e2]; exact hws, by rw [e3]; exact his,
            fun c hc => ?_, fun c hc => ?_⟩
          · rw [e4]
            show c ∈ s1.commits
            rw [hcs]; exact hc
          · rw [e4] at hc
            have hc' : c ∈ s1.commits := hc
            rw [hcs] at hc'
            exact Or.inl hc'
        · split at h
          · rename_i s3 hfull
            injection h with h1 h2
            subst h1
            obtain ⟨e1, e2, e3, e4, e5⟩ := mergeFull_true hfull
            refine ⟨by rw [e1], by rw [e2]; exact hws, by rw [e3]; exact his,
              fun c hc => ?_, fun c hc => ?_⟩
            · apply e4
              show c ∈ s1.commits
              rw [hcs]; exact hc
            · rcases e5 c hc with hc' | hu
              · have hc'' : c ∈ s1.commits := hc'
                rw [hcs] at hc''
                exact Or.inl hc''
              · exact Or.inr hu
          · injection h with h1 h2; cases h2

theorem ensureMainBranch_err {s t : RepoState} {e : EnsureError}
    (h : ensureMainBranch s = (t, some e)) :
    t.commits = s.commits := by
  simp only [ensureMainBranch] at h
  by_cases hmain : headName s.head = "main"
  · rw [if_pos hmain] at h
    injection h with h1 h2; cases h2
  · rw [if_neg hmain] at h
    split at h
    · injection h with h1 h2; subst h1; rfl
    · rename_i s1 heq
      obtain ⟨hcs, -, -⟩ := branchInit_ok heq
      by_cases hHEAD : headName s.head = "HEAD"
      · rw [if_pos hHEAD] at h
        injection h with h1 h2; cases h2
      · rw [if_neg hHEAD] at h
        split at h
        · injection h with h1 h2; cases h2
        · split at h
          · injection h with h1 h2; cases h2
          · rename_i s3 hfull
            injection h with h1 h2
            subst h1
            obtain ⟨f1, -⟩ := mergeFull_false hfull
            rw [f1]
            exact hcs

theorem gitCommit_head {s t : RepoState} {m n : String}
    (hh : s.head = Head.onBranch n) (h : gitCommit s m = some t) :
    t.head = Head.onBranch n := by
  simp only [gitCommit] at h
  split at h
  · cases h
  · rw [hh] at h
    simp only [Option.some.injEq] at h
    subst h
    simp only [setOrAddBranch_head, hh]

/-- Claim C2: every successful `createCheckpoint` (CreateCommit) or `travelTo`
(CheckoutCommit) leaves the working copy on the timeline branch `main`, never
detached. -/
theorem c2_stays_on_timeline_branch (s s' : RepoState) (m cid : String)
    (h : CreateCommit s m = (s', none) ∨ CheckoutCommit s cid = (s', none)) :
    s'.head = Head.onBranch "main" := by
  rcases h with h | h
  · simp only [CreateCommit] at h
    split at h
    · injection h with h1 h2; cases h2
    · rename_i s1 heq
      obtain ⟨hh, -, -, -, -⟩ := ensureMainBranch_ok heq
      cases hg : gitCommit (gitAdd s1) m <;> rw [hg] at h
      · injection h with h1 h2; cases h2
      · rename_i s2
        injection h with h1 h2
        subst h1
        exact gitCommit_head
          (show (gitAdd s1).head = Head.onBranch "main" from hh) hg
  · simp only [CheckoutCommit] at h
    split at h
    · injection h with h1 h2; cases h2
    · rename_i s1 heq
      obtain ⟨hh, -, -, -, -⟩ := ensureMainBranch_ok heq
      by_cases hex : hashExists s1 cid = true
      · rw [if_pos hex] at h
        injection h with h1 h2
        subst h1
        rw [show ({ setOrAddBranch s1 "main" cid with
              worktree := false, index := false } : RepoState).head
            = (setOrAddBranch s1 "main" cid).head from rfl,
          setOrAddBranch_head]
        exact hh
      · rw [if_neg hex] at h
        injection h with h1 h2; cases h2

/-- Claim C5 (amended): when `createCheckpoint` or `travelTo` returns an
error, no commit is ever deleted from the store, and the failed step itself
creates no checkpoint commit: every commit present afterwards was already
present or is a branch-repair merge commit (author `user`, not the synthetic
checkpoint author).  The repository is not restored to its pre-operation
state: the branch-repair effects persist — branch creation and switch, a
merge result or, on a conflicted merge, a conflict-marked working tree — and
the staging of `git add .` persists across a failed commit. -/
theorem c5_amended (s : RepoState) (m cid : String) :
    (((CreateCommit s m).2).isSome = true →
      (∀ c ∈ s.commits, c ∈ (CreateCommit s m).1.commits)
      ∧ (∀ c ∈ (CreateCommit s m).1.commits,
          c ∈ s.commits ∨ c.author = "user"))
    ∧ (((CheckoutCommit s cid).2).isSome = true →
      (∀ c ∈ s.commits, c ∈ (CheckoutCommit s cid).1.commits)
      ∧ (∀ c ∈ (CheckoutCommit s cid).1.commits,
          c ∈ s.commits ∨ c.author = "user")) := by
  constructor
  · intro herr
    cases he : ensureMainBranch s with
    | mk s1 err =>
      cases err with
      | some e =>
          have hcs := ensureMainBranch_err he
          have hcc : CreateCommit s m = (s1, some (.ensureMainFailed e)) := by
            simp only [CreateCommit]; rw [he]
          rw [hcc]
          refine ⟨fun c hc => ?_, fun c hc => ?_⟩
          · show c ∈ s1.commits
            rw [hcs]; exact hc
          · have hc' : c ∈ s1.commits := hc
            rw [hcs] at hc'
            exact Or.inl hc'
      | none =>
          obtain ⟨-, -, -, hsub, hrev⟩ := ensureMainBranch_ok he
          cases hg : gitCommit (gitAdd s1) m with
          | none =>
              have hcc : CreateCommit s m = (gitAdd s1, some .commitFailed) := by
                simp only [CreateCommit]; rw [he]
                show (match gitCommit (gitAdd s1) m with
                      | some s3 => (s3, none)
                      | none => (gitAdd s1, some GitError.commitFailed)) = _
                rw [hg]
              rw [hcc]
              exact ⟨fun c hc => hsub c hc, fun c hc => hrev c hc⟩
          | some s2 =>
              have hcc : CreateCommit s m = (s2, none) := by
                simp only [CreateCommit]; rw [he]
                show (match gitCommit (gitAdd s1) m with
                      | some s3 => (s3, none)
                      | none => (gitAdd s1, some GitError.commitFailed)) = _
                rw [hg]
              rw [hcc] at herr
              simp at herr
  · intro herr
    cases he : ensureMainBranch s with
    | mk s1 err =>
      cases err with
      | some e =>
          have hcs := ensureMainBranch_err he
          have hcc : CheckoutCommit s cid = (s1, some (.ensureMainFailed e)) := by
            simp only [CheckoutCommit]; rw [he]
          rw [hcc]
          refine ⟨fun c hc => ?_, fun c hc => ?_⟩
          · show c ∈ s1.commits
            rw [hcs]; exact hc
          · have hc' : c ∈ s1.commits := hc
            rw [hcs] at hc'
            exact Or.inl hc'
      | none =>
          obtain ⟨-, -, -, hsub, hrev⟩ := ensureMainBranch_ok he
          by_cases hex : hashExists s1 cid = true
          · have hcc : CheckoutCommit s cid
                = ({ setOrAddBranch s1 "main" cid with
                     worktree := false, index := false }, none) := by
              simp only [CheckoutCommit]; rw [he]
              show (if hashExists s1 cid = true then _ else _) = _
              rw [if_pos hex]
            rw [hcc] at herr
            simp at herr
          · have hcc : CheckoutCommit s cid = (s1, some .resetFailed) := by
              simp only [CheckoutCommit]; rw [he]
              show (if hashExists s1 cid = true then _ else _) = _
              rw [if_neg hex]
            rw [hcc]
            exact ⟨fun c hc => hsub c hc, fun c hc => hrev c hc⟩

/-! ### Concrete repository states for witnesses and counterexamples -/

def cA : CommitObj :=
  { hash := "a1", message := "first", author := "Layrr", date := 0, parents := [] }

def cB : CommitObj :=
  { hash := "b2", message := "second", author := "Layrr", date := 1
  , parents := ["a1"] }

/-- Two commits, clean working tree, on `main` at the newest commit. -/
def repoTwo : RepoState :=
  { commits := [cB, cA], branches := [("main", "b2")]
  , head := .onBranch "main", worktree := false, index := false
  , conflicts := [], now := 2 }

/-- Same repository with uncommitted working-tree changes. -/
def repoDirty : RepoState := { repoTwo with worktree := true }

/-- One commit, on a branch named `feature`; `main` does not exist. -/
def repoFeat : RepoState :=
  { commits := [cA], branches := [("feature", "a1")]
  , head := .onBranch "feature", worktree := false, index := false
  , conflicts := [], now := 1 }

/-- `repoTwo` after travelling back to `a1`. -/
def travelled : RepoState :=
  { commits := [cB, cA], branches := [("main", "a1")]
  , head := .onBranch "main", worktree := false, index := false
  , conflicts := [], now := 2 }

/-- `repoDirty` after a successful checkpoint. -/
def committedRepo : RepoState :=
  { commits := [{ hash := "c2", message := "fix typo", author := "Layrr"
                , date := 2, parents := ["b2"] }, cB, cA]
  , branches := [("main", "c2")], head := .onBranch "main"
  , worktree := false, index := false, conflicts := [], now := 3 }

/-- A repository on branch `feature`, diverged from `main` (neither tip is an
ancestor of the other) with conflicting content on the two tips. -/
def repoConf : RepoState :=
  { commits :=
      [ { hash := "f1", message := "work on feature", author := "user"
        , date := 2, parents := ["r0"] }
      , { hash := "m1", message := "work on main", author := "Layrr"
        , date := 1, parents := ["r0"] }
      , { hash := "r0", message := "root", author := "Layrr"
        , date := 0, parents := [] } ]
  , branches := [("main", "m1"), ("feature", "f1")]
  , head := .onBranch "feature", worktree := false, index := false
  , conflicts := [("m1", "f1")], now := 3 }

theorem c2_stays_on_timeline_branch_witness :
    committedRepo.head = Head.onBranch "main" :=
  c2_stays_on_timeline_branch repoDirty committedRepo "fix typo" "x"
    (Or.inl (by decide))

/-- Claim C5, counterexample: (a) from a repository on branch `feature` with
no `main`, `travelTo` of an unknown id fails, yet the branch-repair step has
created `main` and switched to it — the state is not the pre-operation one;
(b) from a clean repository whose `feature` and `main` tips conflict,
`travelTo` fails in the merge fallback and leaves the working tree
conflict-marked — a failed operation turns a clean tree dirty. -/
theorem c5_counterexample :
    (((CheckoutCommit repoFeat "nope").2).isSome = true
      ∧ (CheckoutCommit repoFeat "nope").1 ≠ repoFeat)
    ∧ (((CheckoutCommit repoConf "m1").2).isSome = true
      ∧ repoConf.worktree = false
      ∧ (CheckoutCommit repoConf "m1").1.worktree = true) := by
  exact ⟨⟨by decide, by decide⟩, by decide, rfl, by decide⟩

theorem c5_amended_witness :
    ((∀ c ∈ repoTwo.commits, c ∈ (CreateCommit repoTwo "m").1.commits)
      ∧ (∀ c ∈ (CreateCommit repoTwo "m").1.commits,
          c ∈ repoTwo.commits ∨ c.author = "user"))
    ∧ ((∀ c ∈ repoFeat.commits, c ∈ (CheckoutCommit repoFeat "nope").1.commits)
      ∧ (∀ c ∈ (CheckoutCommit repoFeat "nope").1.commits,
          c ∈ repoFeat.commits ∨ c.author = "user")) :=
  ⟨(c5_amended repoTwo "m" "x").1 (by decide),
   (c5_amended repoFeat "m" "nope").2 (by decide)⟩

/-- Claim C1: the code evaluated at the claim's own scenario.  `travelTo "a1"`
from the two-checkpoint repository succeeds: no commit object is deleted from
the store and the current position is `a1` — but `git log --all` lists only
ref-reachable commits, and `reset --hard` moved the only ref (`main`) off the
later checkpoint `b2`, so `b2` is listed before the travel and no longer
listed after it.  This contradicts the claim (and the code's own comments
"Use --all to show all commits" / "This allows viewing all commits in
history"). -/
theorem c1_travel_unlists_later_checkpoints :
    CheckoutCommit repoTwo "a1" = (travelled, none)
    ∧ (∀ c ∈ repoTwo.commits, c ∈ travelled.commits)
    ∧ currentCheckpoint travelled = some "a1"
    ∧ toCommit cB ∈ GetCommitHistory repoTwo 50
    ∧ toCommit cB ∉ GetCommitHistory travelled 50 := by
  refine ⟨by decide, by decide, by decide, ?_, ?_⟩
  · have hl : listedCommits repoTwo = [cB, cA] := by decide
    have hsor : List.Pairwise (fun a b => byDateDesc a b = true) [cB, cA] := by
      decide
    unfold GetCommitHistory
    rw [hl, List.mergeSort_of_sorted hsor]
    decide
  · have hl : listedCommits travelled = [cA] := by decide
    unfold GetCommitHistory
    rw [hl, List.mergeSort_singleton]
    decide

/-! ## Correlated transport (`frontend/src/hooks/useWebSocket.ts`)

The hook's mutable refs are modelled as an explicit state.  Handlers are
opaque: the map stores a handler identifier, and `onmessage` reports which
handler it invoked (`MsgOutcome.handled`) or that it dropped the message with
a console warning (`MsgOutcome.dropped`); the model function is total, as the
corresponding code path contains no throw.  `Date.now()` is the `now` field. -/

structure WSState where
  handlers : List (Nat × Nat)
  isConnected : Bool
  reconnectAttempts : Nat
  reconnectScheduled : Bool
  wsOpen : Bool
  now : Nat
deriving DecidableEq, Repr

def maxReconnectAttempts : Nat := 5

def hasHandler (s : WSState) (i : Nat) : Bool :=
  s.handlers.any (fun p => p.1 = i)

def lookupHandler (s : WSState) (i : Nat) : Option Nat :=
  (s.handlers.find? (fun p => p.1 = i)).map (fun p => p.2)

/-- `sendMessage` (useWebSocket.ts lines 19–40): when the socket is open,
assign `Date.now()` as the message id, register the optional response handler
under it, and return the id; otherwise log an error and return null. -/
def sendMessage (s : WSState) (onResponse : Option Nat) : WSState × Option Nat :=
  if s.wsOpen then
    let messageId := s.now
    let s1 :=
      match onResponse with
      | some h => { s with handlers := (messageId, h) :: s.handlers }
      | none => s
    (s1, some messageId)
  else (s, none)

structure Inbound where
  id : Nat
  status : String
deriving DecidableEq, Repr

inductive MsgOutcome where
  | handled (handlerId : Nat)
  | dropped
deriving DecidableEq, Repr

/-- `ws.onmessage` (useWebSocket.ts lines 64–84): if `data.id` is truthy and a
handler is registered for it, invoke the handler, and delete the entry when
the status is terminal (`complete` or `error`); otherwise warn and drop. -/
def onmessage (s : WSState) (d : Inbound) : WSState × MsgOutcome :=
  if d.id ≠ 0 && hasHandler s d.id then
    match lookupHandler s d.id with
    | some h =>
        if d.status = "complete" || d.status = "error" then
          ({ s with handlers := s.handlers.filter (fun p => ¬ p.1 = d.id) },
            .handled h)
        else (s, .handled h)
    | none => (s, .dropped)
  else (s, .dropped)

/-- `ws.onclose` (useWebSocket.ts lines 93–112): set disconnected and, below
the attempt cap, schedule a reconnect — the handler map is not touched. -/
def onclose (s : WSState) : WSState :=
  { s with isConnected := false
         , reconnectScheduled := s.reconnectAttempts < maxReconnectAttempts }

/-! ### Transport lemmas and claim theorems -/

theorem find_filter_ne (i : Nat) :
    ∀ hs : List (Nat × Nat),
      (hs.filter (fun p => ¬ p.1 = i)).find? (fun p => p.1 = i) = none := by
  intro hs
  induction hs with
  | nil => rfl
  | cons p ps ih =>
      by_cases hp : p.1 = i
      · rw [show (p :: ps).filter (fun q => ¬ q.1 = i) = ps.filter (fun q => ¬ q.1 = i) by
          simp [List.filter, hp]]
        exact ih
      · rw [show (p :: ps).filter (fun q => ¬ q.1 = i) = p :: ps.filter (fun q => ¬ q.1 = i) by
          simp [List.filter, hp]]
        rw [List.find?_cons_of_neg _ (by simp [hp])]
        exact ih

theorem filter_ne_of_not_has {s : WSState} {i : Nat}
    (h : hasHandler s i = false) :
    s.handlers.filter (fun p => ¬ p.1 = i) = s.handlers := by
  apply List.filter_eq_self.mpr
  intro p hp
  have : ¬ p.1 = i := by
    intro hpi
    have : s.handlers.any (fun q => q.1 = i) = true :=
      List.any_eq_true.mpr ⟨p, hp, by simp [hpi]⟩
    rw [hasHandler] at h
    rw [h] at this
    cases this
  simpa using this

/-- Claim C3: what the code actually does on disconnect.  `ws.onclose` only
flips the connection flag and schedules a reconnect; the pending-handler map
is carried over unchanged, so every pending request stays registered across a
disconnect instead of being failed or timed out. -/
theorem c3_onclose_keeps_handlers (s : WSState) :
    (onclose s).handlers = s.handlers
    ∧ (onclose s).isConnected = false := by
  exact ⟨rfl, rfl⟩

/-- Claim C6: sending with a fresh id registers the handler; an inbound
terminal `complete` message with that id invokes exactly that handler and
removes the entry, restoring the map; a duplicate of the same message then
finds no handler and is dropped without error (the model function is total
and returns `dropped`, mirroring the warn-and-return path). -/
theorem c6_roundtrip (s : WSState) (h : Nat)
    (hopen : s.wsOpen = true) (hnz : s.now ≠ 0)
    (hfresh : hasHandler s s.now = false) :
    ∃ s1 s2,
      sendMessage s (some h) = (s1, some s.now)
      ∧ onmessage s1 ⟨s.now, "complete"⟩ = (s2, MsgOutcome.handled h)
      ∧ s2.handlers = s.handlers
      ∧ onmessage s2 ⟨s.now, "complete"⟩ = (s2, MsgOutcome.dropped) := by
  refine ⟨{ s with handlers := (s.now, h) :: s.handlers },
          { s with handlers := s.handlers.filter (fun p => ¬ p.1 = s.now) },
          ?_, ?_, ?_, ?_⟩
  · simp only [sendMessage]
    rw [if_pos hopen]
  · simp [onmessage, hasHandler, lookupHandler, hnz, List.filter]
  · exact filter_ne_of_not_has hfresh
  · rw [show ({ s with handlers := s.handlers.filter (fun p => ¬ p.1 = s.now) }
        : WSState) = { s with handlers := s.handlers } by
      rw [filter_ne_of_not_has hfresh]]
    simp [onmessage, hasHandler]
    intro hz x hx
    exfalso
    have hcontra : hasHandler s s.now = true :=
      List.any_eq_true.mpr ⟨(s.now, x), hx, by simp⟩
    rw [hfresh] at hcontra
    cases hcontra

/-- A connection with one unrelated pending handler. -/
def wsBase : WSState :=
  { handlers := [(3, 9)], isConnected := true, reconnectAttempts := 0
  , reconnectScheduled := false, wsOpen := true, now := 42 }

theorem c6_roundtrip_witness :
    ∃ s1 s2,
      sendMessage wsBase (some 7) = (s1, some wsBase.now)
      ∧ onmessage s1 ⟨wsBase.now, "complete"⟩ = (s2, MsgOutcome.handled 7)
      ∧ s2.handlers = wsBase.handlers
      ∧ onmessage s2 ⟨wsBase.now, "complete"⟩ = (s2, MsgOutcome.dropped) :=
  c6_roundtrip wsBase 7 (by decide) (by decide) (by decide)

end Layrr
